import Mathlib

/-!
Verification of the poker-quiz-bot core against its design spec.

Shallow embedding of the repository's Python sources:
* src/bot/quiz.py    — Question, QuizManager (draw, answer recording)
* src/bot/score.py   — ScoreManager (score row update, leaderboard query)
* src/bot/persistence.py — save_state / load_state snapshot round trip
* src/bot/main.py    — handle_answer (session checks, duplicate check,
  early-close on full participation) and startup state restoration

Python dicts are modelled as insertion-ordered association lists, Python sets
as Finset, random.choice as an externally supplied index into the pool, and
runtime exceptions as Option/Except.
-/

/-- A quiz question (src/bot/quiz.py, dataclass Question).  The terms dict is
modelled as an association list. -/
structure Question where
  id : Nat
  type : String
  situation : String
  hand : String
  options : List String
  answer : Nat
  explanation : String
  terms : List (String × String)
  range_key : String
deriving DecidableEq, Repr

/-- The mutable state of QuizManager (src/bot/quiz.py lines 19-27):
the loaded catalog, the set of used question ids, the current question, and
the user-answer dict (user_id to chosen option index, insertion ordered). -/
structure QuizManager where
  questions : List Question
  used_questions : Finset Nat
  current_question : Option Question
  user_answers : List (Nat × Nat)
deriving DecidableEq

/-- Python dict assignment d[k] = v: overwrite in place if the key is present,
otherwise append at the end (insertion order preserved). -/
def dictInsert (k v : Nat) : List (Nat × Nat) → List (Nat × Nat)
  | [] => [(k, v)]
  | (k0, v0) :: rest =>
      if k0 = k then (k, v) :: rest else (k0, v0) :: dictInsert k v rest

/-- Python membership test: k in d (keys of an association-list dict). -/
def dictContains (k : Nat) (m : List (Nat × Nat)) : Bool :=
  m.any (fun p => p.1 == k)

/-- QuizManager.get_random_question (quiz.py lines 95-107).  The available
pool is the catalog minus the used ids; if it is empty the used set is cleared
and the pool is the whole catalog.  random.choice is modelled by the supplied
index c taken mod the pool size; none models the IndexError random.choice
raises on an empty catalog. -/
def get_random_question (c : Nat) (s : QuizManager) : Option (Question × QuizManager) :=
  let available := s.questions.filter (fun q => decide (q.id ∉ s.used_questions))
  let used0 := if available.isEmpty then (∅ : Finset Nat) else s.used_questions
  let pool := if available.isEmpty then s.questions else available
  match pool with
  | [] => none
  | p :: ps =>
      let q := (p :: ps).getD (c % (p :: ps).length) p
      some (q, { s with
                  used_questions := insert q.id used0,
                  current_question := some q,
                  user_answers := [] })

/-- QuizManager.record_answer (quiz.py lines 109-115): returns False without
recording when no question is active, otherwise stores the answer and returns
whether it matches the current question's correct index. -/
def record_answer (user_id answer_index : Nat) (s : QuizManager) : Bool × QuizManager :=
  match s.current_question with
  | none => (false, s)
  | some q =>
      (answer_index == q.answer,
       { s with user_answers := dictInsert user_id answer_index s.user_answers })

/-- Claim C10: after every successful draw, the drawn question is current, its
id is marked used, and the answer map is empty. -/
theorem draw_resets_session (c : Nat) (s : QuizManager) (q : Question)
    (s2 : QuizManager) (h : get_random_question c s = some (q, s2)) :
    s2.current_question = some q ∧ q.id ∈ s2.used_questions ∧ s2.user_answers = [] := by
  unfold get_random_question at h
  simp only [] at h
  split at h
  · exact absurd h (by simp)
  · simp only [Option.some.injEq, Prod.mk.injEq] at h
    obtain ⟨hq, hs⟩ := h
    subst hq
    subst hs
    refine ⟨rfl, ?_, rfl⟩
    exact Finset.mem_insert_self _ _

/-- Witness for C10 on a concrete one-question catalog. -/
theorem draw_resets_session_witness :
    let q1 : Question :=
      { id := 1, type := "preflop", situation := "s", hand := "AKs",
        options := ["Fold", "Raise"], answer := 1, explanation := "e",
        terms := [], range_key := "" }
    let s0 : QuizManager :=
      { questions := [q1], used_questions := ∅,
        current_question := none, user_answers := [(7, 0)] }
    ∃ q s2, get_random_question 0 s0 = some (q, s2) ∧
      (s2.current_question = some q ∧ q.id ∈ s2.used_questions ∧ s2.user_answers = []) := by
  intro q1 s0
  refine ⟨q1, _, rfl, draw_resets_session 0 s0 q1 _ rfl⟩

/-- One row of the scores table (src/bot/score.py, table scores). -/
structure ScoreRow where
  username : String
  correct : Nat
  total : Nat
  streak : Nat
  best_streak : Nat
deriving DecidableEq, Repr

/-- ScoreManager.record_answer, score-row part (score.py lines 37-68), for one
user: none is the no-row-yet INSERT path, some row the UPDATE path.  A correct
answer adds one to correct and streak; a wrong answer subtracts one from
correct (floored at zero, Nat subtraction) and resets streak; total always
grows by one and best_streak is the running maximum of streak. -/
def score_record_answer (username : String) (is_correct : Bool) :
    Option ScoreRow → ScoreRow
  | none =>
      { username := username
        correct := if is_correct then 1 else 0
        total := 1
        streak := if is_correct then 1 else 0
        best_streak := if is_correct then 1 else 0 }
  | some r =>
      let correct := if is_correct then r.correct + 1 else r.correct - 1
      let streak := if is_correct then r.streak + 1 else 0
      { username := username
        correct := correct
        total := r.total + 1
        streak := streak
        best_streak := max r.best_streak streak }

/-- The score row of one user after a sequence of answers (earliest first);
none when the user has never answered. -/
def score_after (username : String) (l : List Bool) : Option ScoreRow :=
  l.foldl (fun acc b => some (score_record_answer username b acc)) none

/-- Specification-side notion: the length of the trailing run of correct
answers (the all-true suffix) of an answer sequence. -/
def trailing_run (l : List Bool) : Nat :=
  (l.reverse.takeWhile (fun b => b)).length

/-- Specification-side notion: the maximum streak value ever reached over all
prefixes of an answer sequence. -/
def best_run (l : List Bool) : Nat :=
  (List.range (l.length + 1)).foldl (fun m k => max m (trailing_run (l.take k))) 0

theorem score_after_append (u : String) (l : List Bool) (b : Bool) :
    score_after u (l ++ [b]) = some (score_record_answer u b (score_after u l)) := by
  unfold score_after
  rw [List.foldl_append]
  rfl

theorem trailing_run_append (l : List Bool) (b : Bool) :
    trailing_run (l ++ [b]) = if b then trailing_run l + 1 else 0 := by
  unfold trailing_run
  rw [List.reverse_append]
  cases b <;> simp [List.takeWhile]

theorem best_run_append (l : List Bool) (b : Bool) :
    best_run (l ++ [b]) = max (best_run l) (trailing_run (l ++ [b])) := by
  unfold best_run
  have hlen : (l ++ [b]).length + 1 = (l.length + 1) + 1 := by simp
  rw [hlen, List.range_succ, List.foldl_append]
  have htake : ∀ k ∈ List.range (l.length + 1),
      (l ++ [b]).take k = l.take k := by
    intro k hk
    rw [List.mem_range] at hk
    exact List.take_append_of_le_length (by omega)
  have hfold : ∀ (init : Nat),
      (List.range (l.length + 1)).foldl (fun m k => max m (trailing_run ((l ++ [b]).take k))) init =
      (List.range (l.length + 1)).foldl (fun m k => max m (trailing_run (l.take k))) init := by
    intro init
    exact List.foldl_ext _ _ init (by intro a x hx; rw [htake x hx])
  have hfull : (l ++ [b]).take (l.length + 1) = l ++ [b] := by
    apply List.take_of_length_le
    simp
  simp only [List.foldl_cons, List.foldl_nil]
  rw [hfold, hfull]

theorem score_after_eq_none (u : String) (l : List Bool)
    (h : score_after u l = none) : l = [] := by
  cases l with
  | nil => rfl
  | cons b bs =>
    exfalso
    have aux : ∀ (t : List Bool) (r : ScoreRow),
        t.foldl (fun acc x => some (score_record_answer u x acc)) (some r) ≠ none := by
      intro t
      induction t with
      | nil => intro r hr; exact Option.some_ne_none r hr
      | cons x xs ih => intro r hr; exact ih _ hr
    exact aux bs _ h

/-- Claim C4: after every sequence of recorded answers, correct does not
exceed total, streak is the length of the trailing run of correct answers,
and best_streak is the maximum streak value reached over all prefixes. -/
theorem score_row_invariants (u : String) (l : List Bool) (r : ScoreRow)
    (h : score_after u l = some r) :
    r.correct ≤ r.total ∧ r.streak = trailing_run l ∧ r.best_streak = best_run l := by
  induction l using List.reverseRecOn generalizing r with
  | nil => simp [score_after] at h
  | append_singleton l b ih =>
    rw [score_after_append] at h
    match hprev : score_after u l with
    | none =>
      have hl : l = [] := score_after_eq_none u l hprev
      subst hl
      rw [hprev] at h
      simp only [Option.some.injEq] at h
      subst h
      cases b <;> simp [score_record_answer, trailing_run, best_run, List.range_succ]
    | some r0 =>
      rw [hprev] at h
      simp only [Option.some.injEq] at h
      subst h
      obtain ⟨h1, h2, h3⟩ := ih r0 hprev
      refine ⟨?_, ?_, ?_⟩
      · cases b <;> simp [score_record_answer] <;> omega
      · rw [trailing_run_append, ← h2]
        cases b <;> simp [score_record_answer]
      · rw [best_run_append, trailing_run_append, ← h2, ← h3]
        cases b <;> simp [score_record_answer]

/-- Witness for C4 on the concrete sequence correct, wrong, correct, correct. -/
theorem score_row_invariants_witness :
    score_after "u" [true, false, true, true] =
      some { username := "u", correct := 2, total := 4, streak := 2, best_streak := 2 } ∧
    ({ username := "u", correct := 2, total := 4, streak := 2, best_streak := 2 : ScoreRow }.correct ≤
      ({ username := "u", correct := 2, total := 4, streak := 2, best_streak := 2 : ScoreRow }).total ∧
     ({ username := "u", correct := 2, total := 4, streak := 2, best_streak := 2 : ScoreRow }).streak =
      trailing_run [true, false, true, true] ∧
     ({ username := "u", correct := 2, total := 4, streak := 2, best_streak := 2 : ScoreRow }).best_streak =
      best_run [true, false, true, true]) :=
  ⟨by decide, score_row_invariants "u" [true, false, true, true] _ (by decide)⟩

/-- Counterexample to claim C5: after the sequence correct, wrong, the stored
correct count is 0, but exactly one recorded answer was correct — the code
decrements the score on a wrong answer instead of leaving it unchanged. -/
theorem score_no_decrement_cx :
    (score_after "u" [true, false]).map ScoreRow.correct = some 0 ∧
    [true, false].count true = 1 ∧
    ¬ (score_after "u" [true, false]).map ScoreRow.correct =
        some ([true, false].count true) := by decide

/-- Claim C5 as amended: correct is incremented on a correct answer and
decremented (floored at zero) on a wrong one, so it never exceeds the number
of recorded correct answers; total equals the number of recorded answers. -/
theorem score_correct_le_count (u : String) (l : List Bool) (r : ScoreRow)
    (h : score_after u l = some r) :
    r.correct ≤ l.count true ∧ r.total = l.length := by
  induction l using List.reverseRecOn generalizing r with
  | nil => simp [score_after] at h
  | append_singleton l b ih =>
    rw [score_after_append] at h
    match hprev : score_after u l with
    | none =>
      have hl : l = [] := score_after_eq_none u l hprev
      subst hl
      rw [hprev] at h
      simp only [Option.some.injEq] at h
      subst h
      cases b <;> simp [score_record_answer]
    | some r0 =>
      rw [hprev] at h
      simp only [Option.some.injEq] at h
      subst h
      obtain ⟨h1, h2⟩ := ih r0 hprev
      constructor
      · cases b <;> simp [score_record_answer, List.count_append] <;> omega
      · cases b <;> simp [score_record_answer, h2]

/-- Witness for the amended C5 on the concrete sequence correct, wrong. -/
theorem score_correct_le_count_witness :
    score_after "u" [true, false] =
      some { username := "u", correct := 0, total := 2, streak := 0, best_streak := 1 } ∧
    (({ username := "u", correct := 0, total := 2, streak := 0, best_streak := 1 : ScoreRow }).correct ≤
       [true, false].count true ∧
     ({ username := "u", correct := 0, total := 2, streak := 0, best_streak := 1 : ScoreRow }).total =
       [true, false].length) :=
  ⟨by decide, score_correct_le_count "u" [true, false] _ (by decide)⟩

/-- The ORDER BY relation of ScoreManager.get_leaderboard (score.py lines
80-85): correct DESC, ties broken by total ASC. -/
def leaderboard_le (a b : ScoreRow) : Prop :=
  b.correct < a.correct ∨ (a.correct = b.correct ∧ a.total ≤ b.total)

instance : DecidableRel leaderboard_le := fun a b => by
  unfold leaderboard_le
  infer_instance

/-- What the SQL contract of ScoreManager.get_leaderboard guarantees for the
ORDER BY clause (score.py lines 80-85) before LIMIT is applied: the result is
some permutation of the table rows that is sorted by correct DESC, total ASC.
SQLite does not specify the relative order of rows with equal sort keys, so
any such permutation is an admissible query result. -/
def order_by_result (rows out : List ScoreRow) : Prop :=
  List.Perm out rows ∧ out.Sorted leaderboard_le

/-- ScoreManager.get_leaderboard (score.py lines 78-97): an admissible result
is any admissible ORDER BY output truncated to the first limit rows. -/
def leaderboard_result (rows : List ScoreRow) (limit : Nat)
    (out : List ScoreRow) : Prop :=
  ∃ full, order_by_result rows full ∧ out = full.take limit

/-- Example leaderboard rows from the spec: A with 5 correct of 10. -/
def rowA : ScoreRow :=
  { username := "A", correct := 5, total := 10, streak := 0, best_streak := 0 }

/-- Example leaderboard rows from the spec: B with 5 correct of 6. -/
def rowB : ScoreRow :=
  { username := "B", correct := 5, total := 6, streak := 0, best_streak := 0 }

/-- Example leaderboard rows from the spec: C with 7 correct of 20. -/
def rowC : ScoreRow :=
  { username := "C", correct := 7, total := 20, streak := 0, best_streak := 0 }

/-- Two users with identical correct and total counts, in table order D then
E. -/
def rowD : ScoreRow :=
  { username := "D", correct := 3, total := 5, streak := 0, best_streak := 0 }

/-- See rowD: same correct and total, later table position. -/
def rowE : ScoreRow :=
  { username := "E", correct := 3, total := 5, streak := 0, best_streak := 0 }

/-- Counterexample to claim C6's stability conjunct: for the table rows D, E
with equal (correct, total), the query contract admits the output E, D, which
reverses the relative order of the two equal-key rows — SQLite's ORDER BY
leaves tie order unspecified, so the code does not guarantee a stable order.
-/
theorem leaderboard_not_stable_cx :
    leaderboard_result [rowD, rowE] 2 [rowE, rowD] ∧
    [rowE, rowD] ≠ [rowD, rowE] :=
  ⟨⟨[rowE, rowD], ⟨by decide, by decide⟩, rfl⟩, by decide⟩

theorem sorted_perm_example_unique (full : List ScoreRow)
    (hperm : List.Perm full [rowA, rowB, rowC])
    (hsort : full.Sorted leaderboard_le) : full = [rowC, rowB, rowA] := by
  have hlen : full.length = 3 := by rw [hperm.length_eq]; rfl
  rcases full with - | ⟨x, rest⟩
  · simp at hlen
  rcases rest with - | ⟨y, rest⟩
  · simp at hlen
  rcases rest with - | ⟨z, rest⟩
  · simp at hlen
  rcases rest with - | ⟨w, rest⟩
  · have hx : x ∈ ([rowA, rowB, rowC] : List ScoreRow) := hperm.subset (by simp)
    have hy : y ∈ ([rowA, rowB, rowC] : List ScoreRow) := hperm.subset (by simp)
    have hz : z ∈ ([rowA, rowB, rowC] : List ScoreRow) := hperm.subset (by simp)
    simp only [List.mem_cons, List.not_mem_nil, or_false] at hx hy hz
    rcases hx with rfl | rfl | rfl <;> rcases hy with rfl | rfl | rfl <;>
      rcases hz with rfl | rfl | rfl <;> revert hperm hsort <;> decide
  · simp at hlen

/-- Claim C6 as amended: every admissible leaderboard result has at most
limit rows and is ordered by correct count descending with ties broken by
smaller total first; the relative order of rows with equal (correct, total)
is left unspecified by the query, so stability is not guaranteed; on the
spec's example A(5,10), B(5,6), C(7,20), whose keys are pairwise distinct,
every admissible result of leaderboard(3) is exactly C, B, A. -/
theorem leaderboard_ordering_spec (rows : List ScoreRow) (limit : Nat)
    (out : List ScoreRow) (h : leaderboard_result rows limit out) :
    out.length ≤ limit ∧ out.Sorted leaderboard_le ∧
    (∀ out3, leaderboard_result [rowA, rowB, rowC] 3 out3 →
      out3 = [rowC, rowB, rowA]) := by
  obtain ⟨full, ⟨hperm, hsort⟩, heq⟩ := h
  refine ⟨?_, ?_, ?_⟩
  · rw [heq, List.length_take]
    omega
  · rw [heq]
    exact List.Pairwise.sublist (List.take_sublist _ _) hsort
  · rintro out3 ⟨full3, ⟨hperm3, hsort3⟩, heq3⟩
    rw [heq3, sorted_perm_example_unique full3 hperm3 hsort3]
    rfl

/-- Witness for the amended C6 at the spec's concrete example: C, B, A is an
admissible result of leaderboard(3) over the table A, B, C, and the theorem's
conclusions hold for it. -/
theorem leaderboard_ordering_spec_witness :
    leaderboard_result [rowA, rowB, rowC] 3 [rowC, rowB, rowA] ∧
    (([rowC, rowB, rowA] : List ScoreRow).length ≤ 3 ∧
     ([rowC, rowB, rowA] : List ScoreRow).Sorted leaderboard_le ∧
     (∀ out3, leaderboard_result [rowA, rowB, rowC] 3 out3 →
       out3 = [rowC, rowB, rowA])) :=
  ⟨⟨[rowC, rowB, rowA], ⟨by decide, by decide⟩, rfl⟩,
   leaderboard_ordering_spec [rowA, rowB, rowC] 3 [rowC, rowB, rowA]
     ⟨[rowC, rowB, rowA], ⟨by decide, by decide⟩, rfl⟩⟩

/-- A raw record of data/questions.json as _load_questions reads it
(quiz.py lines 29-47); none models a missing key, for which the subscript
q[k] raises KeyError.  terms and range_key are read with .get defaults. -/
structure RawRecord where
  id : Option Nat
  type : Option String
  situation : Option String
  hand : Option String
  options : Option (List String)
  answer : Option Nat
  explanation : Option String
  terms : Option (List (String × String))
  range_key : Option String
deriving DecidableEq, Repr

/-- One iteration of the list comprehension in _load_questions: every required
key is subscripted (KeyError, modelled as error, when absent); the answer
index is used as-is, with no range check against the option list. -/
def load_question (r : RawRecord) : Except String Question :=
  match r.id, r.type, r.situation, r.hand, r.options, r.answer, r.explanation with
  | some id, some ty, some si, some ha, some op, some an, some ex =>
      .ok { id := id, type := ty, situation := si, hand := ha, options := op,
            answer := an, explanation := ex,
            terms := r.terms.getD [], range_key := r.range_key.getD "" }
  | _, _, _, _, _, _, _ => .error "KeyError"

/-- QuizManager._load_questions over the whole catalog file: the comprehension
evaluates records in order and aborts at the first KeyError, producing no
Question list at all (startup is fatal). -/
def load_questions : List RawRecord → Except String (List Question)
  | [] => .ok []
  | r :: rs =>
      match load_question r, load_questions rs with
      | .ok q, .ok qs => .ok (q :: qs)
      | .error e, _ => .error e
      | .ok _, .error e => .error e

/-- A record is missing a required catalog field. -/
def missing_required (r : RawRecord) : Prop :=
  r.id = none ∨ r.type = none ∨ r.situation = none ∨ r.hand = none ∨
  r.options = none ∨ r.answer = none ∨ r.explanation = none

instance : DecidablePred missing_required := fun r => by
  unfold missing_required
  infer_instance

/-- A catalog record whose answer index 5 is out of range for its two
options. -/
def outOfRangeRec : RawRecord :=
  { id := some 1, type := some "preflop", situation := some "s",
    hand := some "AKs", options := some ["Fold", "Raise"], answer := some 5,
    explanation := some "e", terms := none, range_key := none }

/-- Counterexample to claim C7: a record whose correct-option index (5) is out
of range for its option list (length 2) is loaded successfully instead of
failing with a DataFormatError. -/
theorem load_out_of_range_cx :
    load_questions [outOfRangeRec] =
      .ok [{ id := 1, type := "preflop", situation := "s", hand := "AKs",
             options := ["Fold", "Raise"], answer := 5, explanation := "e",
             terms := [], range_key := "" }] ∧
    (outOfRangeRec.options.getD []).length ≤ (outOfRangeRec.answer.getD 0) := by
  constructor
  · rfl
  · decide

/-- Claim C7 as amended: load fails exactly when some record is missing a
required field, in which case no Question list is produced at all; the
correct-option index is not validated, so a successful load returns one
Question per record whatever the answer indices are. -/
theorem load_questions_spec (rs : List RawRecord) :
    ((∃ r ∈ rs, missing_required r) ↔ ∃ e, load_questions rs = .error e) ∧
    (∀ qs, load_questions rs = .ok qs → qs.length = rs.length) := by
  induction rs with
  | nil =>
    refine ⟨⟨?_, ?_⟩, ?_⟩
    · rintro ⟨r, hr, -⟩
      exact absurd hr (List.not_mem_nil r)
    · rintro ⟨e, he⟩
      exact absurd he (by simp [load_questions])
    · intro qs hqs
      simp only [load_questions] at hqs
      cases hqs
      rfl
  | cons r rs ih =>
    have hone : (missing_required r ↔ ∃ e, load_question r = .error e) ∧
        (¬ missing_required r → ∃ q, load_question r = .ok q) := by
      constructor
      · constructor
        · intro hm
          unfold load_question
          unfold missing_required at hm
          rcases hr : r.id with - | v0 <;> rcases ht : r.type with - | v1 <;>
            rcases hs : r.situation with - | v2 <;> rcases hh : r.hand with - | v3 <;>
            rcases ho : r.options with - | v4 <;> rcases ha : r.answer with - | v5 <;>
            rcases he : r.explanation with - | v6 <;>
            simp_all
        · rintro ⟨e, he⟩
          unfold load_question at he
          unfold missing_required
          rcases hr : r.id with - | v0 <;> rcases ht : r.type with - | v1 <;>
            rcases hs : r.situation with - | v2 <;> rcases hh : r.hand with - | v3 <;>
            rcases ho : r.options with - | v4 <;> rcases ha : r.answer with - | v5 <;>
            rcases hx : r.explanation with - | v6 <;> simp_all
      · intro hm
        unfold load_question
        unfold missing_required at hm
        rcases hr : r.id with - | v0 <;> rcases ht : r.type with - | v1 <;>
          rcases hs : r.situation with - | v2 <;> rcases hh : r.hand with - | v3 <;>
          rcases ho : r.options with - | v4 <;> rcases ha : r.answer with - | v5 <;>
          rcases hx : r.explanation with - | v6 <;> simp_all
    refine ⟨⟨?_, ?_⟩, ?_⟩
    · rintro ⟨x, hx, hmx⟩
      rcases List.mem_cons.mp hx with hx | hx
      · subst hx
        obtain ⟨e, he⟩ := hone.1.mp hmx
        refine ⟨e, ?_⟩
        unfold load_questions
        rw [he]
      · obtain ⟨e, he⟩ := ih.1.mp ⟨x, hx, hmx⟩
        unfold load_questions
        rw [he]
        match hq : load_question r with
        | .ok q => exact ⟨e, rfl⟩
        | .error e2 => exact ⟨e2, rfl⟩
    · rintro ⟨e, he⟩
      unfold load_questions at he
      by_cases hm : missing_required r
      · exact ⟨r, List.mem_cons_self r rs, hm⟩
      · obtain ⟨q, hq⟩ := hone.2 hm
        rw [hq] at he
        match hrest : load_questions rs with
        | .ok qs => rw [hrest] at he; cases he
        | .error e2 =>
          obtain ⟨x, hx, hmx⟩ := ih.1.mpr ⟨e2, hrest⟩
          exact ⟨x, List.mem_cons_of_mem r hx, hmx⟩
    · intro qs hqs
      unfold load_questions at hqs
      match hq : load_question r, hrest : load_questions rs with
      | .ok q, .ok qs0 =>
        rw [hq, hrest] at hqs
        cases hqs
        simp [ih.2 qs0 hrest]
      | .error e, _ => rw [hq] at hqs; cases hqs
      | .ok q, .error e => rw [hq, hrest] at hqs; cases hqs

/-- A catalog record with the required id field missing. -/
def missingFieldRec : RawRecord :=
  { id := none, type := some "preflop", situation := some "s",
    hand := some "AKs", options := some ["Fold", "Raise"], answer := some 0,
    explanation := some "e", terms := none, range_key := none }

/-- Witness for the amended C7: a record missing its id makes the whole load
fail, and the out-of-range record loads into a one-question list. -/
theorem load_questions_spec_witness :
    (∃ e, load_questions [missingFieldRec] = .error e) ∧
    ([{ id := 1, type := "preflop", situation := "s", hand := "AKs",
        options := ["Fold", "Raise"], answer := 5, explanation := "e",
        terms := [], range_key := "" }] : List Question).length =
      [outOfRangeRec].length :=
  ⟨(load_questions_spec [missingFieldRec]).1.mp (by decide),
   (load_questions_spec [outOfRangeRec]).2 _ rfl⟩

/-- The full bot state of the spec's snapshot schema, as held in memory by
main.py and QuizManager: active chats, DM-enabled users, the current question
id, the preceding (last) question id, the used-question-id set, and the open
answer map. -/
structure BotState where
  active_chats : Finset Nat
  dm_enabled_users : Finset Nat
  current_question_id : Option Nat
  last_question_id : Option Nat
  used_questions : Finset Nat
  user_answers : List (Nat × Nat)
deriving DecidableEq

/-- What persistence.save_state (persistence.py lines 26-41) writes: its only
parameters are active_chats, dm_enabled_users and current_question_id, plus a
wall-clock last_quiz_time (real time, not modelled).  The used-question set,
the answer map and the last question id are not parameters and never reach
the file. -/
structure PersistedState where
  active_chats : Finset Nat
  dm_enabled_users : Finset Nat
  current_question_id : Option Nat
deriving DecidableEq

/-- Snapshot of the bot state through persistence.save_state. -/
def save_state (s : BotState) : PersistedState :=
  { active_chats := s.active_chats
    dm_enabled_users := s.dm_enabled_users
    current_question_id := s.current_question_id }

/-- Startup restoration (persistence.load_state plus main.py lines 34-64):
keys absent from the snapshot fall back to defaults, so used_questions and
user_answers come back empty and last_question_id none; the current question
is re-attached only when the persisted id is nonzero (Python truthiness of
"if _current_q_id:") and matches a catalog question. -/
def restore_state (catalog : List Question) (p : PersistedState) : BotState :=
  { active_chats := p.active_chats
    dm_enabled_users := p.dm_enabled_users
    current_question_id :=
      match p.current_question_id with
      | some i => if i ≠ 0 ∧ catalog.any (fun q => q.id == i) then some i else none
      | none => none
    last_question_id := none
    used_questions := ∅
    user_answers := [] }

/-- A reachable bot state: one chat, a current and a preceding question, two
used questions and one open answer. -/
def egState : BotState :=
  { active_chats := {100}
    dm_enabled_users := {7}
    current_question_id := some 1
    last_question_id := some 2
    used_questions := {1, 2}
    user_answers := [(7, 0)] }

/-- Claim C1 fails on the code (code bug): restoring the snapshot of egState
loses the used-question set, the open answer map and the preceding question
id, because save_state never writes them even though load_state's callers
read them back; so restore of snapshot is not the identity. -/
theorem snapshot_no_roundtrip :
    restore_state
        [{ id := 1, type := "preflop", situation := "s", hand := "AKs",
           options := ["Fold", "Raise"], answer := 1, explanation := "e",
           terms := [], range_key := "" },
         { id := 2, type := "postflop", situation := "s2", hand := "QQ",
           options := ["Check", "Bet"], answer := 0, explanation := "e2",
           terms := [], range_key := "" }]
        (save_state egState) ≠ egState ∧
    (restore_state
        [{ id := 1, type := "preflop", situation := "s", hand := "AKs",
           options := ["Fold", "Raise"], answer := 1, explanation := "e",
           terms := [], range_key := "" },
         { id := 2, type := "postflop", situation := "s2", hand := "QQ",
           options := ["Check", "Bet"], answer := 0, explanation := "e2",
           terms := [], range_key := "" }]
        (save_state egState)).used_questions = ∅ ∧
    egState.used_questions = {1, 2} := by
  refine ⟨?_, rfl, rfl⟩
  intro h
  have := congrArg BotState.used_questions h
  simp [restore_state, save_state, egState] at this
  have h1 : (1 : Nat) ∈ ({1, 2} : Finset Nat) := by decide
  rw [← this] at h1
  exact absurd h1 (Finset.not_mem_empty 1)

/-- Outcome of a button-press answer event as handle_answer reports it back to
the user: the quiz-already-ended alert, the already-answered alert, or a
recorded answer with its correctness. -/
inductive AnswerOutcome where
  | quizEnded
  | alreadyAnswered
  | answered (is_correct : Bool)
deriving DecidableEq, Repr

/-- The per-chat state handle_answer works on: the shared QuizManager plus the
chat's entry in active_quiz_messages (its question; the stored message id does
not influence answer processing). -/
structure ChatState where
  quiz : QuizManager
  active_quiz : Option Question
deriving DecidableEq

/-- handle_answer, answer-recording part (main.py lines 293-315): reject when
the chat has no active quiz message or the pressed question is not the active
one, reject a duplicate user id, otherwise record via
QuizManager.record_answer. -/
def handle_answer (user_id question_id answer_index : Nat) (st : ChatState) :
    AnswerOutcome × ChatState :=
  match st.active_quiz with
  | none => (.quizEnded, st)
  | some current_q =>
      if current_q.id ≠ question_id then (.quizEnded, st)
      else if dictContains user_id st.quiz.user_answers then (.alreadyAnswered, st)
      else
        let res := record_answer user_id answer_index st.quiz
        (.answered res.1, { st with quiz := res.2 })

/-- A session is open for question_id: the chat has an active quiz message for
that question and it is also the manager's current question. -/
def session_open (st : ChatState) (question_id : Nat) : Prop :=
  ∃ a, st.active_quiz = some a ∧ a.id = question_id ∧
    st.quiz.current_question = some a

instance (st : ChatState) (qid : Nat) : Decidable (session_open st qid) :=
  match h : st.active_quiz with
  | none =>
      isFalse (by rintro ⟨a, ha, -⟩; rw [h] at ha; cases ha)
  | some a =>
      if hc : a.id = qid ∧ st.quiz.current_question = some a then
        isTrue ⟨a, h, hc.1, hc.2⟩
      else
        isFalse (by
          rintro ⟨b, hb, h1, h2⟩
          rw [h] at hb
          cases hb
          exact hc ⟨h1, h2⟩)

/-- Claim C3: in an open session, a second answer by a user already in the
answer map is rejected with the already-answered alert and the whole state,
in particular the answer map, is unchanged. -/
theorem duplicate_answer_rejected (st : ChatState) (uid qid ai : Nat)
    (hopen : session_open st qid)
    (hdup : dictContains uid st.quiz.user_answers = true) :
    handle_answer uid qid ai st = (.alreadyAnswered, st) := by
  obtain ⟨a, ha, hid, -⟩ := hopen
  unfold handle_answer
  rw [ha]
  simp [hid, hdup]

/-- Demo question 1: id 1, correct option 0. -/
def qd1 : Question :=
  { id := 1, type := "preflop", situation := "UTG folds", hand := "AKs",
    options := ["Raise", "Fold"], answer := 0, explanation := "open",
    terms := [], range_key := "" }

/-- Demo question 2: id 2, correct option 1. -/
def qd2 : Question :=
  { id := 2, type := "postflop", situation := "BTN bets", hand := "QQ",
    options := ["Fold", "Call"], answer := 1, explanation := "call",
    terms := [], range_key := "" }

/-- An open session on qd1 where user 7 has already answered. -/
def stAnswered : ChatState :=
  { quiz := { questions := [qd1, qd2], used_questions := {1},
              current_question := some qd1, user_answers := [(7, 0)] }
    active_quiz := some qd1 }

/-- Witness for C3: in the concrete open session stAnswered, a second answer
by user 7 is rejected and the state is unchanged. -/
theorem duplicate_answer_rejected_witness :
    session_open stAnswered 1 ∧
    dictContains 7 stAnswered.quiz.user_answers = true ∧
    handle_answer 7 1 1 stAnswered = (.alreadyAnswered, stAnswered) :=
  ⟨by decide, by decide,
   duplicate_answer_rejected stAnswered 7 1 1 (by decide) (by decide)⟩

theorem handle_answer_open_eq (st : ChatState) (uid qid ai : Nat) (q : Question)
    (hopen : session_open st qid) (hq : st.quiz.current_question = some q)
    (hfresh : dictContains uid st.quiz.user_answers = false) :
    handle_answer uid qid ai st =
      (.answered (ai == q.answer),
       { st with quiz := { st.quiz with
           user_answers := dictInsert uid ai st.quiz.user_answers } }) := by
  obtain ⟨a, ha, hid, hcq⟩ := hopen
  rw [hq] at hcq
  injection hcq with haq
  subst haq
  unfold handle_answer
  rw [ha]
  simp [hid, hfresh, record_answer, hq]

/-- A session state whose active quiz message shows qd1 while the manager's
current question has moved on to qd2 (reachable when a chat's re-post fails
during an early advance, or across chats): not an open session for qd1. -/
def stMismatch : ChatState :=
  { quiz := { questions := [qd1, qd2], used_questions := {1, 2},
              current_question := some qd2, user_answers := [] }
    active_quiz := some qd1 }

/-- Counterexample to claim C8: stMismatch is not open for question 1, yet
answering question 1 there is not rejected with the session-closed alert —
the answer is recorded into the map and judged (against qd2). -/
theorem session_closed_check_cx :
    ¬ session_open stMismatch 1 ∧
    (handle_answer 7 1 0 stMismatch).1 = .answered false ∧
    (handle_answer 7 1 0 stMismatch).2.quiz.user_answers = [(7, 0)] := by decide

/-- Claim C8 as amended: with no active quiz message, or with a question id
other than the active message's, recordAnswer fails with the session-closed
alert and inserts nothing; in an open session a fresh user's answer is
inserted and judged correct exactly when it equals the current question's
correct-option index. -/
theorem record_answer_session_checks (st : ChatState) (uid qid ai : Nat) :
    (st.active_quiz = none → handle_answer uid qid ai st = (.quizEnded, st)) ∧
    (∀ a, st.active_quiz = some a → a.id ≠ qid →
      handle_answer uid qid ai st = (.quizEnded, st)) ∧
    (∀ q, session_open st qid → st.quiz.current_question = some q →
      dictContains uid st.quiz.user_answers = false →
      handle_answer uid qid ai st =
        (.answered (ai == q.answer),
         { st with quiz := { st.quiz with
             user_answers := dictInsert uid ai st.quiz.user_answers } })) := by
  refine ⟨?_, ?_, ?_⟩
  · intro h
    unfold handle_answer
    rw [h]
  · intro a ha hne
    unfold handle_answer
    rw [ha]
    simp [hne]
  · intro q hopen hq hfresh
    exact handle_answer_open_eq st uid qid ai q hopen hq hfresh

/-- An open session on qd1 with no answers yet. -/
def stOpen : ChatState :=
  { quiz := { questions := [qd1, qd2], used_questions := {1},
              current_question := some qd1, user_answers := [] }
    active_quiz := some qd1 }

/-- A chat with no active quiz message. -/
def stNoQuiz : ChatState :=
  { quiz := { questions := [qd1, qd2], used_questions := {1},
              current_question := some qd1, user_answers := [] }
    active_quiz := none }

/-- Witness for the amended C8, covering all three branches on concrete
states: no active message, stale question id, and a fresh correct answer. -/
theorem record_answer_session_checks_witness :
    handle_answer 7 1 0 stNoQuiz = (.quizEnded, stNoQuiz) ∧
    handle_answer 7 99 0 stOpen = (.quizEnded, stOpen) ∧
    handle_answer 7 1 0 stOpen =
      (.answered true,
       { stOpen with quiz := { stOpen.quiz with user_answers := [(7, 0)] } }) :=
  ⟨(record_answer_session_checks stNoQuiz 7 1 0).1 rfl,
   (record_answer_session_checks stOpen 7 99 0).2.1 qd1 rfl (by decide),
   (record_answer_session_checks stOpen 7 1 0).2.2 qd1 (by decide) rfl (by decide)⟩

/-- The sequence of question ids produced by iterating get_random_question
over a choice sequence; a failed draw (empty catalog) ends the trace. -/
def draw_ids (s : QuizManager) : List Nat → List Nat
  | [] => []
  | c :: cs =>
      match get_random_question c s with
      | none => []
      | some r => r.1.id :: draw_ids r.2 cs

/-- The set of question ids of a catalog. -/
def idSet (qs : List Question) : Finset Nat :=
  (qs.map Question.id).toFinset

/-- A freshly started QuizManager over a given catalog: nothing used, no
current question, no answers. -/
def initial_manager (qs : List Question) : QuizManager :=
  { questions := qs, used_questions := ∅, current_question := none,
    user_answers := [] }

theorem getD_mod_mem {α : Type} (l : List α) (hl : l ≠ []) (c : Nat) (d : α) :
    l.getD (c % l.length) d ∈ l := by
  have hpos : 0 < l.length := List.length_pos.mpr hl
  have hlt : c % l.length < l.length := Nat.mod_lt _ hpos
  rw [List.getD_eq_getElem l d hlt]
  exact List.getElem_mem hlt

theorem get_random_question_exhausted (c : Nat) (s : QuizManager)
    (hne : s.questions ≠ [])
    (hx : ∀ x ∈ s.questions, x.id ∈ s.used_questions) :
    ∃ q s2, get_random_question c s = some (q, s2) ∧ q ∈ s.questions ∧
      s2.questions = s.questions ∧ s2.used_questions = {q.id} ∧
      s2.current_question = some q ∧ s2.user_answers = [] := by
  have hav : s.questions.filter (fun q => decide (q.id ∉ s.used_questions)) = [] := by
    rw [List.filter_eq_nil_iff]
    intro a ha
    simp [hx a ha]
  unfold get_random_question
  rw [hav]
  simp only [List.isEmpty_nil, if_true]
  rcases hqs : s.questions with - | ⟨p, ps⟩
  · exact absurd hqs hne
  · refine ⟨(p :: ps).getD (c % (p :: ps).length) p, _, rfl, ?_, rfl, rfl, rfl, rfl⟩
    rw [← hqs] at *
    exact getD_mod_mem s.questions hne c p

theorem get_random_question_fresh (c : Nat) (s : QuizManager)
    (hnx : ¬ ∀ x ∈ s.questions, x.id ∈ s.used_questions) :
    ∃ q s2, get_random_question c s = some (q, s2) ∧ q ∈ s.questions ∧
      q.id ∉ s.used_questions ∧ s2.questions = s.questions ∧
      s2.used_questions = insert q.id s.used_questions ∧
      s2.current_question = some q ∧ s2.user_answers = [] := by
  have hav : s.questions.filter (fun q => decide (q.id ∉ s.used_questions)) ≠ [] := by
    intro hav
    rw [List.filter_eq_nil_iff] at hav
    apply hnx
    intro x hx
    have := hav x hx
    simpa using this
  rcases hf : s.questions.filter (fun q => decide (q.id ∉ s.used_questions)) with - | ⟨p, ps⟩
  · exact absurd hf hav
  · unfold get_random_question
    simp only []
    rw [hf]
    simp only [List.isEmpty_cons, Bool.false_eq_true, if_false]
    set q := (p :: ps).getD (c % (p :: ps).length) p with hqdef
    have hqmem : q ∈ p :: ps := getD_mod_mem (p :: ps) (by simp) c p
    rw [← hf] at hqmem
    rw [List.mem_filter] at hqmem
    refine ⟨q, _, rfl, hqmem.1, by simpa using hqmem.2, rfl, rfl, rfl, rfl⟩

theorem idSet_card (qs : List Question) (hnd : (qs.map Question.id).Nodup) :
    (idSet qs).card = qs.length := by
  unfold idSet
  rw [List.toFinset_card_of_nodup hnd, List.length_map]

theorem mem_idSet_of_mem (qs : List Question) (q : Question) (hq : q ∈ qs) :
    q.id ∈ idSet qs := by
  unfold idSet
  rw [List.mem_toFinset]
  exact List.mem_map_of_mem Question.id hq

theorem not_exhausted_of_lt (qs : List Question)
    (hnd : (qs.map Question.id).Nodup) (s : QuizManager)
    (hq : s.questions = qs)
    (hlt : s.used_questions.card < qs.length) :
    ¬ ∀ x ∈ s.questions, x.id ∈ s.used_questions := by
  intro hall
  have hsup : idSet qs ⊆ s.used_questions := by
    intro y hy
    unfold idSet at hy
    rw [List.mem_toFinset, List.mem_map] at hy
    obtain ⟨x, hx, rfl⟩ := hy
    exact hall x (by rw [hq]; exact hx)
  have hcard := Finset.card_le_card hsup
  rw [idSet_card qs hnd] at hcard
  omega

theorem draw_ids_fill (qs : List Question) (hnd : (qs.map Question.id).Nodup) :
    ∀ (m : Nat) (cs : List Nat) (s : QuizManager),
      s.questions = qs → s.used_questions ⊆ idSet qs →
      s.used_questions.card + m = qs.length → m ≤ cs.length →
      ∃ ids s2, draw_ids s cs = ids ++ draw_ids s2 (cs.drop m) ∧
        ids.length = m ∧ ids.Nodup ∧
        (∀ x ∈ ids, x ∈ idSet qs ∧ x ∉ s.used_questions) ∧
        s2.questions = qs ∧
        s2.used_questions = s.used_questions ∪ ids.toFinset ∧
        s2.used_questions = idSet qs := by
  intro m
  induction m with
  | zero =>
    intro cs s hq hsub hcard _
    refine ⟨[], s, by simp, rfl, List.nodup_nil, by simp, hq, by simp, ?_⟩
    apply Finset.eq_of_subset_of_card_le hsub
    rw [idSet_card qs hnd]
    omega
  | succ m ih =>
    intro cs s hq hsub hcard hlen
    rcases cs with - | ⟨c, cs'⟩
    · simp at hlen
    · have hqslen : 0 < qs.length := by omega
      have hne : s.questions ≠ [] := by
        rw [hq]
        intro h0
        rw [h0] at hqslen
        simp at hqslen
      have hnx : ¬ ∀ x ∈ s.questions, x.id ∈ s.used_questions :=
        not_exhausted_of_lt qs hnd s hq (by omega)
      obtain ⟨q, s2, hdraw, hqmem, hfresh2, hq2, hused2, -, -⟩ :=
        get_random_question_fresh c s hnx
      have hstep : draw_ids s (c :: cs') = q.id :: draw_ids s2 cs' := by
        simp only [draw_ids, hdraw]
      have hqmem2 : q ∈ qs := by rw [← hq]; exact hqmem
      have hidmem : q.id ∈ idSet qs := mem_idSet_of_mem qs q hqmem2
      have hsub2 : s2.used_questions ⊆ idSet qs := by
        rw [hused2]
        intro y hy
        rcases Finset.mem_insert.mp hy with rfl | hy
        · exact hidmem
        · exact hsub hy
      have hcard2 : s2.used_questions.card + m = qs.length := by
        rw [hused2, Finset.card_insert_of_not_mem hfresh2]
        omega
      obtain ⟨ids', s3, hdec, hlen', hnd', hfreshall, hq3, hused3, hfull⟩ :=
        ih cs' s2 (hq2.trans hq) hsub2 hcard2
          (by simp only [List.length_cons] at hlen; omega)
      refine ⟨q.id :: ids', s3, ?_, by simp [hlen'], ?_, ?_, hq3, ?_, hfull⟩
      · rw [hstep, hdec, List.drop_succ_cons, List.cons_append]
      · rw [List.nodup_cons]
        refine ⟨?_, hnd'⟩
        intro hmem
        obtain ⟨-, hnotin⟩ := hfreshall q.id hmem
        exact hnotin (by rw [hused2]; exact Finset.mem_insert_self _ _)
      · intro x hx
        rcases List.mem_cons.mp hx with rfl | hx
        · exact ⟨hidmem, hfresh2⟩
        · obtain ⟨hin, hnotin⟩ := hfreshall x hx
          refine ⟨hin, fun hxin => hnotin ?_⟩
          rw [hused2]
          exact Finset.mem_insert_of_mem hxin
      · rw [hused3, hused2, List.toFinset_cons]
        ext y
        simp only [Finset.mem_union, Finset.mem_insert]
        tauto

theorem draw_ids_cycle (qs : List Question) (hne : qs ≠ [])
    (hnd : (qs.map Question.id).Nodup) :
    ∀ (cs : List Nat) (s : QuizManager),
      s.questions = qs →
      (s.used_questions = ∅ ∨ s.used_questions = idSet qs) →
      qs.length ≤ cs.length →
      ∃ ids s2, draw_ids s cs = ids ++ draw_ids s2 (cs.drop qs.length) ∧
        ids.length = qs.length ∧ ids.Nodup ∧ ids.toFinset = idSet qs ∧
        s2.questions = qs ∧ s2.used_questions = idSet qs := by
  intro cs s hq hinit hlen
  rcases hinit with h0 | hfull
  · obtain ⟨ids, s2, hdec, hl, hnd2, hmem, hq2, hused2, hfin⟩ :=
      draw_ids_fill qs hnd qs.length cs s hq
        (by rw [h0]; exact Finset.empty_subset _) (by rw [h0]; simp) hlen
    refine ⟨ids, s2, hdec, hl, hnd2, ?_, hq2, hfin⟩
    rw [hused2, h0, Finset.empty_union] at hfin
    exact hfin
  · have hx : ∀ x ∈ s.questions, x.id ∈ s.used_questions := by
      intro x hx2
      rw [hfull]
      exact mem_idSet_of_mem qs x (by rw [← hq]; exact hx2)
    have hsne : s.questions ≠ [] := by rw [hq]; exact hne
    have hpos : 0 < qs.length := List.length_pos.mpr hne
    rcases cs with - | ⟨c, cs'⟩
    · exfalso
      simp only [List.length_nil] at hlen
      omega
    · obtain ⟨q, s2, hdraw, hqmem, hq2, hused2, -, -⟩ :=
        get_random_question_exhausted c s hsne hx
      have hstep : draw_ids s (c :: cs') = q.id :: draw_ids s2 cs' := by
        simp only [draw_ids, hdraw]
      have hqmem2 : q ∈ qs := by rw [← hq]; exact hqmem
      have hidmem : q.id ∈ idSet qs := mem_idSet_of_mem qs q hqmem2
      obtain ⟨ids', s3, hdec, hl', hnd', hmem', hq3, hused3, hfin⟩ :=
        draw_ids_fill qs hnd (qs.length - 1) cs' s2 (hq2.trans hq)
          (by
            rw [hused2]
            intro y hy
            rw [Finset.mem_singleton] at hy
            subst hy
            exact hidmem)
          (by rw [hused2, Finset.card_singleton]; omega)
          (by simp only [List.length_cons] at hlen; omega)
      refine ⟨q.id :: ids', s3, ?_, ?_, ?_, ?_, hq3, hfin⟩
      · rw [hstep, hdec, List.cons_append]
        have hdrop : (c :: cs').drop qs.length = cs'.drop (qs.length - 1) := by
          obtain ⟨n2, hn2⟩ : ∃ n2, qs.length = n2 + 1 := ⟨qs.length - 1, by omega⟩
          rw [hn2]
          simp [List.drop_succ_cons]
        rw [hdrop]
      · simp only [List.length_cons, hl']
        omega
      · rw [List.nodup_cons]
        refine ⟨?_, hnd'⟩
        intro hmemq
        obtain ⟨-, hnotin⟩ := hmem' q.id hmemq
        apply hnotin
        rw [hused2]
        exact Finset.mem_singleton_self q.id
      · rw [hused3, hused2] at hfin
        rw [List.toFinset_cons, ← hfin]
        ext y
        simp only [Finset.mem_insert, Finset.mem_union, Finset.mem_singleton]

theorem draw_ids_blocks (qs : List Question) (hne : qs ≠ [])
    (hnd : (qs.map Question.id).Nodup) :
    ∀ (k : Nat) (cs : List Nat) (s : QuizManager),
      s.questions = qs →
      (s.used_questions = ∅ ∨ s.used_questions = idSet qs) →
      k * qs.length ≤ cs.length →
      ∃ pre s2, draw_ids s cs = pre ++ draw_ids s2 (cs.drop (k * qs.length)) ∧
        pre.length = k * qs.length ∧ s2.questions = qs ∧
        (s2.used_questions = ∅ ∨ s2.used_questions = idSet qs) := by
  intro k
  induction k with
  | zero =>
    intro cs s hq hinit _
    exact ⟨[], s, by simp, by simp, hq, hinit⟩
  | succ k ih =>
    intro cs s hq hinit hlen
    rw [Nat.succ_mul] at hlen
    have hn : qs.length ≤ cs.length := by omega
    obtain ⟨ids, s2, hdec1, hl1, -, -, hq2, hused2⟩ :=
      draw_ids_cycle qs hne hnd cs s hq hinit hn
    obtain ⟨pre, s3, hdec2, hl2, hq3, hinit3⟩ :=
      ih (cs.drop qs.length) s2 hq2 (Or.inr hused2)
        (by rw [List.length_drop]; omega)
    refine ⟨ids ++ pre, s3, ?_, ?_, hq3, hinit3⟩
    · rw [hdec1, hdec2, List.append_assoc, List.drop_drop]
      have harith : qs.length + k * qs.length = (k + 1) * qs.length := by
        rw [Nat.succ_mul]
        omega
      rw [harith]
    · rw [List.length_append, hl1, hl2, Nat.succ_mul]
      omega

/-- Claim C2 as amended: starting from a fresh manager over a catalog of n
questions with distinct ids, the draws form consecutive blocks of n between
exhaustion resets: within every aligned block of n consecutive draws no id
repeats and every catalog id occurs exactly once, and consequently every id
occurs in every window of 2n consecutive draws.  (Across a reset boundary a
repeat is possible, since the reset pool again holds every question.) -/
theorem draw_cycle_windows (qs : List Question) (cs : List Nat) (k i : Nat)
    (q : Question) (hne : qs ≠ []) (hnd : (qs.map Question.id).Nodup)
    (hkn : k * qs.length + qs.length ≤ cs.length)
    (hq : q ∈ qs) (h2n : i + 2 * qs.length ≤ cs.length) :
    (((draw_ids (initial_manager qs) cs).drop (k * qs.length)).take qs.length).Nodup ∧
    (((draw_ids (initial_manager qs) cs).drop (k * qs.length)).take qs.length).toFinset
      = idSet qs ∧
    q.id ∈ ((draw_ids (initial_manager qs) cs).drop i).take (2 * qs.length) := by
  have hnpos : 0 < qs.length := List.length_pos.mpr hne
  have hblock : ∀ k2, k2 * qs.length + qs.length ≤ cs.length →
      (((draw_ids (initial_manager qs) cs).drop (k2 * qs.length)).take qs.length).Nodup ∧
      (((draw_ids (initial_manager qs) cs).drop (k2 * qs.length)).take qs.length).toFinset
        = idSet qs := by
    intro k2 hk2
    obtain ⟨pre, s2, hdec, hlpre, hq2, hinit2⟩ :=
      draw_ids_blocks qs hne hnd k2 cs (initial_manager qs) rfl (Or.inl rfl) (by omega)
    obtain ⟨B, s3, hdecB, hlB, hndB, htsB, -, -⟩ :=
      draw_ids_cycle qs hne hnd (cs.drop (k2 * qs.length)) s2 hq2 hinit2
        (by rw [List.length_drop]; omega)
    have hext : ((draw_ids (initial_manager qs) cs).drop (k2 * qs.length)).take qs.length
        = B := by
      rw [hdec, hdecB, ← hlpre, List.drop_left, ← hlB, List.take_left]
    rw [hext]
    exact ⟨hndB, htsB⟩
  obtain ⟨hnd1, hts1⟩ := hblock k hkn
  refine ⟨hnd1, hts1, ?_⟩
  have hdm := Nat.div_add_mod (i + qs.length - 1) qs.length
  have hmod : (i + qs.length - 1) % qs.length < qs.length := Nat.mod_lt _ hnpos
  have hd1 : i ≤ ((i + qs.length - 1) / qs.length) * qs.length := by
    rw [Nat.mul_comm]
    omega
  have hd2 : ((i + qs.length - 1) / qs.length) * qs.length ≤ i + qs.length := by
    rw [Nat.mul_comm]
    omega
  have hdlen : ((i + qs.length - 1) / qs.length) * qs.length + qs.length ≤ cs.length := by
    omega
  obtain ⟨hndB, htsB⟩ := hblock ((i + qs.length - 1) / qs.length) hdlen
  have hqid : q.id ∈ ((draw_ids (initial_manager qs) cs).drop
      (((i + qs.length - 1) / qs.length) * qs.length)).take qs.length := by
    rw [← List.mem_toFinset, htsB]
    exact mem_idSet_of_mem qs q hq
  have hsub : ((((draw_ids (initial_manager qs) cs).drop i).take (2 * qs.length)).drop
        (((i + qs.length - 1) / qs.length) * qs.length - i)).take qs.length
      = ((draw_ids (initial_manager qs) cs).drop
        (((i + qs.length - 1) / qs.length) * qs.length)).take qs.length := by
    rw [List.drop_take, List.drop_drop, List.take_take]
    congr 1
    · omega
    · congr 1
      omega
  rw [← hsub] at hqid
  exact List.mem_of_mem_drop (List.mem_of_mem_take hqid)

/-- Counterexample to claim C2 as stated: on the 2-question catalog qd1, qd2
the choice sequence 0, 0, 1 draws ids 1, 2, 2 — after the exhaustion reset the
pool again contains the question just drawn, so id 2 repeats inside the window
of 2 consecutive draws starting at the second draw. -/
theorem draw_window_repeat_cx :
    draw_ids (initial_manager [qd1, qd2]) [0, 0, 1] = [1, 2, 2] ∧
    ¬ (((draw_ids (initial_manager [qd1, qd2]) [0, 0, 1]).drop 1).take 2).Nodup := by
  decide

/-- Witness for the amended C2 on the concrete catalog qd1, qd2 with four
draws: the first aligned block is duplicate-free and covers both ids, and id 1
occurs in the window of 4 consecutive draws starting at 0. -/
theorem draw_cycle_windows_witness :
    (([qd1, qd2] : List Question) ≠ [] ∧
     (([qd1, qd2].map Question.id).Nodup) ∧
     0 * [qd1, qd2].length + [qd1, qd2].length ≤ ([0, 0, 1, 0] : List Nat).length ∧
     qd1 ∈ [qd1, qd2] ∧
     0 + 2 * [qd1, qd2].length ≤ ([0, 0, 1, 0] : List Nat).length) ∧
    ((((draw_ids (initial_manager [qd1, qd2]) [0, 0, 1, 0]).drop
        (0 * [qd1, qd2].length)).take [qd1, qd2].length).Nodup ∧
     (((draw_ids (initial_manager [qd1, qd2]) [0, 0, 1, 0]).drop
        (0 * [qd1, qd2].length)).take [qd1, qd2].length).toFinset = idSet [qd1, qd2] ∧
     qd1.id ∈ ((draw_ids (initial_manager [qd1, qd2]) [0, 0, 1, 0]).drop 0).take
        (2 * [qd1, qd2].length)) :=
  ⟨⟨by decide, by decide, by decide, by decide, by decide⟩,
   draw_cycle_windows [qd1, qd2] [0, 0, 1, 0] 0 0 qd1
     (by decide) (by decide) (by decide) (by decide) (by decide)⟩
